import Mathlib

/-!
Verification of the fusionlab InnoDB table adapter.

The definitions below are a shallow embedding of the two Rust crates:

* `fusionlab-ibd` (src/crates/fusionlab-ibd/src/{ffi.rs, lib.rs}) — the safe
  wrapper around the native row reader: result codes, error conversion,
  `IbdTable::next_row`, `IbdRow::get`, `ColumnValue` and its string rendering.
* `fusionlab-core` (src/crates/fusionlab-core/src/ibd_provider.rs) — the
  DataFusion table provider: schema derivation in `IbdTableProvider::try_new`,
  projection handling in `IbdExec::new` / `IbdStreamState::try_new`, the batch
  builders, and the pull-stream `IbdStreamState::read_next_batch` wrapped by
  `futures::stream::try_unfold`.

Native-library effects (the C calls themselves) are represented by their
observable outcomes: a raw result code for one `ibd_read_row` call, and a list
of row outcomes standing for the forward-only cursor of an open table handle.
-/

set_option linter.unusedVariables false

/-- Result codes of the C library, ffi.rs lines 9-27. -/
inductive IbdResult
  | Success
  | EndOfStream
  | ErrorInvalidParam
  | ErrorFileNotFound
  | ErrorFileRead
  | ErrorFileWrite
  | ErrorInvalidFormat
  | ErrorCompression
  | ErrorDecompression
  | ErrorEncryption
  | ErrorDecryption
  | ErrorMemory
  | ErrorNotImplemented
  | ErrorKeyring
  | ErrorUnknown
deriving DecidableEq

/-- Conversion of a raw C return code, ffi.rs `impl From<i32> for IbdResult`. -/
def IbdResult.fromInt (code : Int) : IbdResult :=
  match code with
  | 0 => .Success
  | 1 => .EndOfStream
  | -1 => .ErrorInvalidParam
  | -2 => .ErrorFileNotFound
  | -3 => .ErrorFileRead
  | -4 => .ErrorFileWrite
  | -5 => .ErrorInvalidFormat
  | -6 => .ErrorCompression
  | -7 => .ErrorDecompression
  | -8 => .ErrorEncryption
  | -9 => .ErrorDecryption
  | -10 => .ErrorMemory
  | -11 => .ErrorNotImplemented
  | -12 => .ErrorKeyring
  | _ => .ErrorUnknown

/-- Error type of the safe wrapper, lib.rs `IbdError`. -/
inductive IbdError
  | InvalidParam
  | FileNotFound (msg : String)
  | FileRead (msg : String)
  | FileWrite (msg : String)
  | InvalidFormat (msg : String)
  | Compression
  | Decompression
  | Encryption
  | Decryption
  | Memory
  | NotImplemented
  | Keyring
  | Library (msg : String)
  | NoMoreRows
  | InvalidPath (msg : String)
deriving DecidableEq

/-- Error conversion, lib.rs `ibd_error_from_result`. The source match has no
arm for `EndOfStream` (the match in the source is not exhaustive); we send it
to `Library` here, and no theorem below depends on that case. -/
def ibd_error_from_result (result : IbdResult) (message : Option String) : IbdError :=
  let msg := message.getD "Unknown error"
  match result with
  | .Success => .Library "Unexpected success"
  | .EndOfStream => .Library msg
  | .ErrorInvalidParam => .InvalidParam
  | .ErrorFileNotFound => .FileNotFound msg
  | .ErrorFileRead => .FileRead msg
  | .ErrorFileWrite => .FileWrite msg
  | .ErrorInvalidFormat => .InvalidFormat msg
  | .ErrorCompression => .Compression
  | .ErrorDecompression => .Decompression
  | .ErrorEncryption => .Encryption
  | .ErrorDecryption => .Decryption
  | .ErrorMemory => .Memory
  | .ErrorNotImplemented => .NotImplemented
  | .ErrorKeyring => .Keyring
  | .ErrorUnknown => .Library msg

/-- Model of `IbdTable::next_row`, lib.rs lines 304-333. The raw outcome of the
one `ibd_read_row` call is given by its return `code`, whether the out row
handle is null, and the row's column count; the function returns the column
count of the obtained row in place of the row handle. -/
def next_row (code : Int) (rowHandleNull : Bool) (columnCount : Nat) :
    Except IbdError (Option Nat) :=
  let r := IbdResult.fromInt code
  if r ≠ IbdResult.Success then
    if r = IbdResult.ErrorFileRead then Except.ok none
    else Except.error (ibd_error_from_result r (some "Failed to read row"))
  else if rowHandleNull then
    Except.error (IbdError.Library "Reader returned success with null row handle")
  else
    Except.ok (some columnCount)

/-- Column type enumeration, lib.rs `ColumnType`. -/
inductive ColumnType
  | Null
  | Int
  | UInt
  | Float
  | Double
  | Str
  | Binary
  | DateTime
  | Date
  | Time
  | Timestamp
  | Decimal
  | Internal
deriving DecidableEq

/-- Arrow data types used by the provider (`DataType` in ibd_provider.rs). -/
inductive DataType
  | Int64
  | UInt64
  | Float64
  | Utf8
deriving DecidableEq

/-- Type coercion table, ibd_provider.rs `ibd_to_arrow_type` (lines 108-125).
The source names the string variant `String`; it is `Str` here to avoid
clashing with the Lean `String` type. -/
def ibd_to_arrow_type (ibd_type : ColumnType) : DataType :=
  match ibd_type with
  | .Int => .Int64
  | .UInt => .UInt64
  | .Float => .Float64
  | .Double => .Float64
  | .Str => .Utf8
  | .Binary => .Utf8
  | .DateTime => .Utf8
  | .Timestamp => .Utf8
  | .Date => .Utf8
  | .Time => .Utf8
  | .Decimal => .Utf8
  | .Null => .Utf8
  | .Internal => .Utf8

/-- Arrow schema field (`Field::new(name, type, nullable)`). -/
structure ArrowField where
  name : String
  dtype : DataType
  nullable : Bool
deriving DecidableEq

/-- Column schema information from the reader, lib.rs `ColumnInfo`. -/
structure ColumnInfo where
  name : String
  col_type : ColumnType
  index : Nat
deriving DecidableEq

/-- Schema-derivation loop of `IbdTableProvider::try_new`, ibd_provider.rs
lines 69-85: internal columns are skipped without consuming a row index; every
other column yields an Arrow field and a `(name, type, row_idx)` mapping entry,
where `row_idx` counts only the non-internal columns seen so far. -/
def buildSchemaMapping : List ColumnInfo → Nat →
    List ArrowField × List (String × ColumnType × Nat)
  | [], _ => ([], [])
  | col :: rest, row_idx =>
    if col.col_type = ColumnType.Internal then
      buildSchemaMapping rest row_idx
    else
      let (fs, ms) := buildSchemaMapping rest (row_idx + 1)
      (⟨col.name, ibd_to_arrow_type col.col_type, true⟩ :: fs,
       (col.name, col.col_type, row_idx) :: ms)

/-- Carrier for f64 payloads. The adapter never computes with floats, it only
moves them; we keep an exact rational so equality stays decidable. -/
structure F64 where
  val : Rat
deriving DecidableEq

/-- Digit accumulation for the numeric parsers. -/
def digitsToNat : List Char → Nat → Option Nat
  | [], acc => some acc
  | c :: cs, acc =>
    if c.isDigit then digitsToNat cs (acc * 10 + (c.toNat - 48))
    else none

/-- Nonempty all-digit parse. -/
def parseDigits : List Char → Option Nat
  | [] => none
  | cs => digitsToNat cs 0

/-- Modelled: Rust `str::parse::<u64>` — optional leading sign `+`, decimal
digits, range check. -/
def parseU64 (s : String) : Option Nat :=
  let cs := match s.data with
    | '+' :: rest => rest
    | cs => cs
  (parseDigits cs).bind fun n => if n < 2 ^ 64 then some n else none

/-- Modelled: Rust `str::parse::<i64>` — optional sign, decimal digits, range
check. -/
def parseI64 (s : String) : Option Int :=
  match s.data with
  | '-' :: rest =>
    (parseDigits rest).bind fun n =>
      if (n : Int) ≤ 2 ^ 63 then some (-(n : Int)) else none
  | '+' :: rest =>
    (parseDigits rest).bind fun n =>
      if (n : Int) < 2 ^ 63 then some (n : Int) else none
  | cs =>
    (parseDigits cs).bind fun n =>
      if (n : Int) < 2 ^ 63 then some (n : Int) else none

/-- Modelled: Rust `str::parse::<f64>` restricted to plain decimal notation,
kept as an exact rational (no theorem below depends on rounding or on the
further syntax f64 parsing accepts). -/
def parseF64 (s : String) : Option F64 :=
  let signed : List Char → Option Rat := fun cs =>
    match cs.splitOn '.' with
    | [intPart] => (parseDigits intPart).map fun n => (n : Rat)
    | [intPart, fracPart] =>
      (parseDigits intPart).bind fun n =>
        (parseDigits fracPart).map fun f =>
          (n : Rat) + (f : Rat) / ((10 : Rat) ^ fracPart.length)
    | _ => none
  match s.data with
  | '-' :: rest => (signed rest).map fun q => ⟨-q⟩
  | '+' :: rest => (signed rest).map fun q => ⟨q⟩
  | cs => (signed cs).map fun q => ⟨q⟩

/-- Column value of one cell, lib.rs `ColumnValue`. The source names the
string variant `String`; it is `Str` here (same payload). -/
inductive ColumnValue
  | Null
  | Int (v : Int)
  | UInt (v : Nat)
  | Float (v : F64)
  | Str (s : String)
  | Binary (b : List Nat)
  | Formatted (s : String)
deriving DecidableEq

/-- Hex digit for the binary rendering. -/
def hexChar (n : Nat) : Char :=
  if n < 10 then Char.ofNat (48 + n) else Char.ofNat (87 + n)

/-- Modelled: the `hex::encode` helper of lib.rs (two lowercase hex digits per
byte, `format "02x"`). -/
def hexEncode (bs : List Nat) : String :=
  ⟨bs.foldr (fun b acc => hexChar (b / 16 % 16) :: hexChar (b % 16) :: acc) []⟩

/-- Modelled: `f64` Display. The adapter only ever moves this text around and
no theorem depends on the exact rendering. -/
def renderF64 (f : F64) : String :=
  toString f.val

/-- String rendering `ColumnValue::as_string`, lib.rs lines 171-181. A `Null`
value renders as the literal text "NULL" for human display. -/
def asString : ColumnValue → String
  | .Null => "NULL"
  | .Int v => toString v
  | .UInt v => toString v
  | .Float v => renderF64 v
  | .Str s => s
  | .Binary b => "0x" ++ hexEncode b
  | .Formatted s => s

/-- Cell access `IbdRow::get`, lib.rs lines 202-251: a bound check against the
row's column count, then the (here already decoded) cell value. -/
def rowGet (cells : List ColumnValue) (index : Nat) : Except IbdError ColumnValue :=
  if h : index < cells.length then Except.ok (cells.get ⟨index, h⟩)
  else Except.error IbdError.InvalidParam

/-- One projected column of a scan, ibd_provider.rs `ProjectedColumn`. -/
structure ProjCol where
  col_type : ColumnType
  ibd_index : Nat
deriving DecidableEq

/-- Failing traversal of a list under Option, used to model the two
projection lookups that can go out of bounds. -/
def optionTraverse {A B : Type} (f : A -> Option B) : List A -> Option (List B)
  | [] => some []
  | x :: xs =>
    match f x, optionTraverse f xs with
    | some y, some ys => some (y :: ys)
    | _, _ => none

/-- Modelled: arrow `Schema::project` — the fields at the given indices; an
out-of-range index fails (the source calls `.unwrap()` on the result). -/
def schemaProject (fields : List ArrowField) (indices : List Nat) :
    Option (List ArrowField) :=
  optionTraverse (fun i => fields[i]?) indices

/-- Projected schema computed in `IbdExec::new`, ibd_provider.rs lines
185-188: project the exposed schema when a projection is present, otherwise
keep the full schema. -/
def ibdExecProjectedSchema (fields : List ArrowField)
    (projection : Option (List Nat)) : Option (List ArrowField) :=
  match projection with
  | some indices => schemaProject fields indices
  | none => some fields

/-- Index resolution of `IbdStreamState::try_new`, ibd_provider.rs lines
365-379: the requested projection, or `0..column_mapping.len()` when absent,
each index resolved through the cached column mapping (an out-of-range index
panics in the source, modelled as `none`). -/
def resolveProjectedColumns (column_mapping : List (String × ColumnType × Nat))
    (projection : Option (List Nat)) : Option (List ProjCol) :=
  let indices := match projection with
    | some proj => proj
    | none => List.range column_mapping.length
  optionTraverse (fun idx =>
    (column_mapping[idx]?).map fun m => ProjCol.mk m.2.1 m.2.2) indices

/-- Typed per-column accumulator, ibd_provider.rs `ColumnBuilder` (lines
278-283). The source names the string variant `String`; it is `Str` here. -/
inductive ColumnBuilder
  | Int (values : List (Option Int))
  | UInt (values : List (Option Nat))
  | Float (values : List (Option F64))
  | Str (values : List (Option String))
deriving DecidableEq

/-- Builder selection `ColumnBuilder::with_capacity`, ibd_provider.rs lines
286-295 (the capacity argument only preallocates and is dropped here). -/
def ColumnBuilder.with_capacity (col_type : ColumnType) : ColumnBuilder :=
  match col_type with
  | ColumnType.Int => ColumnBuilder.Int []
  | ColumnType.UInt => ColumnBuilder.UInt []
  | ColumnType.Float => ColumnBuilder.Float []
  | ColumnType.Double => ColumnBuilder.Float []
  | _ => ColumnBuilder.Str []

/-- Cell-to-column conversion `ColumnBuilder::push`, ibd_provider.rs lines
297-334. -/
def ColumnBuilder.push (b : ColumnBuilder) (value : ColumnValue) : ColumnBuilder :=
  match b with
  | ColumnBuilder.Int values =>
    let parsed := match value with
      | ColumnValue.Null => none
      | ColumnValue.Int v => some v
      | ColumnValue.Formatted s => parseI64 s
      | _ => none
    ColumnBuilder.Int (values.concat parsed)
  | ColumnBuilder.UInt values =>
    let parsed := match value with
      | ColumnValue.Null => none
      | ColumnValue.UInt v => some v
      | ColumnValue.Formatted s => parseU64 s
      | _ => none
    ColumnBuilder.UInt (values.concat parsed)
  | ColumnBuilder.Float values =>
    let parsed := match value with
      | ColumnValue.Null => none
      | ColumnValue.Float v => some v
      | ColumnValue.Formatted s => parseF64 s
      | _ => none
    ColumnBuilder.Float (values.concat parsed)
  | ColumnBuilder.Str values =>
    let parsed := match value with
      | ColumnValue.Null => none
      | v => some (asString v)
    ColumnBuilder.Str (values.concat parsed)

/-- Number of entries accumulated so far in a builder. -/
def ColumnBuilder.len : ColumnBuilder → Nat
  | ColumnBuilder.Int vs => vs.length
  | ColumnBuilder.UInt vs => vs.length
  | ColumnBuilder.Float vs => vs.length
  | ColumnBuilder.Str vs => vs.length

/-- Finished immutable column, the arrow arrays of `ColumnBuilder::finish`. -/
inductive ArrowArray
  | int64 (vs : List (Option Int))
  | uint64 (vs : List (Option Nat))
  | float64 (vs : List (Option F64))
  | utf8 (vs : List (Option String))
deriving DecidableEq

/-- Builder finalisation `ColumnBuilder::finish`, ibd_provider.rs lines
336-343. -/
def ColumnBuilder.finish : ColumnBuilder → ArrowArray
  | ColumnBuilder.Int vs => ArrowArray.int64 vs
  | ColumnBuilder.UInt vs => ArrowArray.uint64 vs
  | ColumnBuilder.Float vs => ArrowArray.float64 vs
  | ColumnBuilder.Str vs => ArrowArray.utf8 vs

/-- Length of a finished column. -/
def ArrowArray.length : ArrowArray → Nat
  | ArrowArray.int64 vs => vs.length
  | ArrowArray.uint64 vs => vs.length
  | ArrowArray.float64 vs => vs.length
  | ArrowArray.utf8 vs => vs.length

/-- Column-major batch, arrow `RecordBatch`. -/
structure RecordBatch where
  columns : List ArrowArray
deriving DecidableEq

/-- Row count of a batch: arrow derives it from the first column. -/
def RecordBatch.numRows (b : RecordBatch) : Nat :=
  match b.columns with
  | [] => 0
  | c :: _ => c.length

/-- Error channel of the scan stream (`Box<dyn Error + Send + Sync>` in the
source): a reader error or an arrow construction error. -/
inductive ScanError
  | ibd (e : IbdError)
  | arrow (msg : String)
deriving DecidableEq

/-- Modelled: arrow `RecordBatch::try_new` validation — at least one column,
all columns of equal length (field/type agreement holds by construction in
this adapter and is not re-checked here). -/
def recordBatchTryNew (cols : List ArrowArray) : Except ScanError RecordBatch :=
  match cols with
  | [] => Except.error (ScanError.arrow "at least one column required")
  | c :: rest =>
    if rest.all fun a => a.length = c.length then Except.ok ⟨c :: rest⟩
    else Except.error (ScanError.arrow "column lengths differ")

/-- One observable outcome of `IbdTable::next_row` on the scan's own table
handle: a decoded row, end of data, or a reader error. -/
inductive RowOutcome
  | row (cells : List ColumnValue)
  | eof
  | fail (e : IbdError)
deriving DecidableEq

/-- Next outcome of the forward-only cursor; an exhausted outcome list keeps
reporting end of data. -/
def takeOutcome : List RowOutcome → RowOutcome × List RowOutcome
  | [] => (RowOutcome.eof, [])
  | o :: rest => (o, rest)

/-- Scan-time state, ibd_provider.rs `IbdStreamState` (lines 346-353). The
open table handle is represented by the list of outcomes its cursor will
produce. -/
structure IbdStreamState where
  outcomes : List RowOutcome
  projected_columns : List ProjCol
  batch_size : Nat
  done : Bool
deriving DecidableEq

/-- Inner cell loop of `read_next_batch` (ibd_provider.rs lines 409-412):
for each builder zipped with its projected column, fetch the cell at the
column's ibd index and push it. -/
def pushRowCells (cells : List ColumnValue) :
    List ColumnBuilder → List ProjCol → Except IbdError (List ColumnBuilder)
  | builders, [] => Except.ok builders
  | [], _ :: _ => Except.ok []
  | b :: bs, c :: cs => do
    let value ← rowGet cells c.ibd_index
    let rest ← pushRowCells cells bs cs
    Except.ok (b.push value :: rest)

/-- Row loop of `read_next_batch` (ibd_provider.rs lines 406-420), with
`fuel = batch_size - rows_read` remaining row slots: each iteration reads one
row outcome; end of data sets the done flag and stops; an error aborts. -/
def readLoop (projected : List ProjCol) :
    Nat → List RowOutcome → List ColumnBuilder → Nat →
    Except IbdError (List ColumnBuilder × Nat × Bool × List RowOutcome)
  | 0, outcomes, builders, rows_read =>
    Except.ok (builders, rows_read, false, outcomes)
  | fuel + 1, outcomes, builders, rows_read =>
    match takeOutcome outcomes with
    | (RowOutcome.fail e, _) => Except.error e
    | (RowOutcome.eof, rest) => Except.ok (builders, rows_read, true, rest)
    | (RowOutcome.row cells, rest) =>
      match pushRowCells cells builders projected with
      | Except.error e => Except.error e
      | Except.ok builders2 => readLoop projected fuel rest builders2 (rows_read + 1)

/-- Batch production `IbdStreamState::read_next_batch`, ibd_provider.rs lines
391-429. On an error the caller drops the state, so the state returned in
that case is unobservable (the original is returned for definiteness). -/
def read_next_batch (s : IbdStreamState) :
    Except ScanError (Option RecordBatch) × IbdStreamState :=
  if s.done then (Except.ok none, s)
  else
    let builders := s.projected_columns.map fun c =>
      ColumnBuilder.with_capacity c.col_type
    match readLoop s.projected_columns s.batch_size s.outcomes builders 0 with
    | Except.error e => (Except.error (ScanError.ibd e), s)
    | Except.ok (builders2, rows_read, saw_eof, rest) =>
      let s2 : IbdStreamState :=
        { s with outcomes := rest, done := saw_eof }
      if rows_read = 0 then (Except.ok none, s2)
      else
        match recordBatchTryNew (builders2.map ColumnBuilder.finish) with
        | Except.error e => (Except.error e, s2)
        | Except.ok batch => (Except.ok (some batch), s2)

/-- One pull result as the engine observes it. -/
inductive PullResult
  | batch (b : RecordBatch)
  | finished
  | fail (e : ScanError)
deriving DecidableEq

/-- The scan stream as built in `IbdExec::execute` (ibd_provider.rs lines
263-268) with `futures::stream::try_unfold`: `none` is the terminal state in
which the `IbdStreamState` (and with it the reader handle) has been dropped. -/
structure ScanStream where
  state : Option IbdStreamState
deriving DecidableEq

/-- One poll of the `try_unfold` stream: an error or a `none` batch ends the
unfold and drops the state (releasing the handle); a batch re-yields the
state; a finished stream stays finished. -/
def pull (st : ScanStream) : PullResult × ScanStream :=
  match st.state with
  | none => (PullResult.finished, ScanStream.mk none)
  | some s =>
    match read_next_batch s with
    | (Except.error e, _) => (PullResult.fail e, ScanStream.mk none)
    | (Except.ok none, _) => (PullResult.finished, ScanStream.mk none)
    | (Except.ok (some b), s2) => (PullResult.batch b, ScanStream.mk (some s2))

/-- Results of the first `n` pulls. -/
def pullList : ScanStream → Nat → List PullResult
  | _, 0 => []
  | st, n + 1 =>
    let (r, st2) := pull st
    r :: pullList st2 n

/-- Fresh stream over a source that will yield the given rows and then end,
as `IbdStreamState::try_new` leaves it (done = false, fresh handle). -/
def initStream (projected : List ProjCol) (batch_size : Nat)
    (rows : List (List ColumnValue)) : ScanStream :=
  ScanStream.mk (some ⟨rows.map RowOutcome.row, projected, batch_size, false⟩)

/-- Shape of one pull result: how many rows a batch carried, or termination,
or an error. -/
inductive PullShape
  | rows (n : Nat)
  | finished
  | failed
deriving DecidableEq

/-- Shape observation. -/
def PullResult.shape : PullResult → PullShape
  | PullResult.batch b => PullShape.rows b.numRows
  | PullResult.finished => PullShape.finished
  | PullResult.fail _ => PullShape.failed

deriving instance DecidableEq for Except

/-! Helper lemmas. -/

/-- Every push appends exactly one entry to the accumulator. -/
theorem ColumnBuilder.push_len (b : ColumnBuilder) (v : ColumnValue) :
    (b.push v).len = b.len + 1 := by
  cases b <;> simp [ColumnBuilder.push, ColumnBuilder.len]

/-- Filtering a list by a property and by its negation splits its length. -/
theorem length_filter_internal_split (cols : List ColumnInfo) :
    (cols.filter fun c => c.col_type ≠ ColumnType.Internal).length
      + (cols.filter fun c => c.col_type = ColumnType.Internal).length
      = cols.length := by
  induction cols with
  | nil => rfl
  | cons col rest ih =>
    by_cases h : col.col_type = ColumnType.Internal <;>
      simp [List.filter_cons, h] at ih ⊢ <;> omega

/-- The mapping half of the schema loop keeps exactly the non-internal
columns, in order, with their coerced types (the starting row index is
irrelevant to names and types). -/
theorem buildSchemaMapping_names_types (cols : List ColumnInfo) (n : Nat) :
    (buildSchemaMapping cols n).2.map (fun x => (x.1, x.2.1))
      = (cols.filter fun c => c.col_type ≠ ColumnType.Internal).map
          fun c => (c.name, c.col_type) := by
  induction cols generalizing n with
  | nil => rfl
  | cons col rest ih =>
    by_cases h : col.col_type = ColumnType.Internal <;>
      simp [buildSchemaMapping, List.filter_cons, h, ih]

/-- The fields half of the schema loop has the same length as the mapping
half. -/
theorem buildSchemaMapping_lengths (cols : List ColumnInfo) (n : Nat) :
    (buildSchemaMapping cols n).1.length = (buildSchemaMapping cols n).2.length := by
  induction cols generalizing n with
  | nil => rfl
  | cons col rest ih =>
    by_cases h : col.col_type = ColumnType.Internal <;>
      simp [buildSchemaMapping, h, ih]

/-! Claim theorems. -/

/-- C1 counterexample: a ReadError result from the underlying reader
(`ibd_read_row` returning the `ErrorFileRead` code, -3) is not surfaced as an
error by `next_row`; it is silently translated into stream completion
(`Ok(None)`), contradicting the claim as stated. -/
theorem next_row_read_error_counterexample :
    IbdResult.fromInt (-3) = IbdResult.ErrorFileRead
    ∧ next_row (-3) false 3 = Except.ok none :=
  ⟨rfl, rfl⟩

/-- C1 amended: `next_row` reports end of data as a normal non-error
termination (`Ok(None)`), but the underlying code it treats as end of data is
the reader's `ErrorFileRead` result: that read-error code is translated into
stream completion rather than surfaced, every other failure code (other than
the `EndOfStream` code, for which the source's error conversion has no arm) is
surfaced as an error, and a successful read yields the row. -/
theorem next_row_amended :
    (∀ (b : Bool) (n : Nat), next_row (-3) b n = Except.ok none)
    ∧ (∀ (c : Int) (b : Bool) (n : Nat),
        IbdResult.fromInt c ≠ IbdResult.Success →
        IbdResult.fromInt c ≠ IbdResult.EndOfStream →
        IbdResult.fromInt c ≠ IbdResult.ErrorFileRead →
        ∃ e, next_row c b n = Except.error e)
    ∧ (∀ n : Nat, next_row 0 false n = Except.ok (some n)) := by
  refine ⟨fun b n => rfl, fun c b n h1 h2 h3 => ?_, fun n => rfl⟩
  exact ⟨ibd_error_from_result (IbdResult.fromInt c) (some "Failed to read row"),
    by simp [next_row, h1, h3]⟩

/-- C1 amended witness: code -5 (`ErrorInvalidFormat`) is surfaced as an
error. -/
theorem next_row_amended_witness :
    IbdResult.fromInt (-5) ≠ IbdResult.Success
    ∧ ∃ e, next_row (-5) false 3 = Except.error e :=
  ⟨by decide, next_row_amended.2.1 (-5) false 3 (by decide) (by decide) (by decide)⟩

/-- C2 counterexample: for the catalog [DB_TRX_ID(Internal), id(Int),
name(String)] the provider records physical (row) indices 0 and 1, not 1 and
2 as the claim states, because the row reader's value-access API skips
internal columns. -/
theorem schema_scenario_counterexample :
    (buildSchemaMapping
        [⟨"DB_TRX_ID", ColumnType.Internal, 0⟩, ⟨"id", ColumnType.Int, 1⟩,
         ⟨"name", ColumnType.Str, 2⟩] 0).2
      = [("id", ColumnType.Int, 0), ("name", ColumnType.Str, 1)]
    ∧ (buildSchemaMapping
        [⟨"DB_TRX_ID", ColumnType.Internal, 0⟩, ⟨"id", ColumnType.Int, 1⟩,
         ⟨"name", ColumnType.Str, 2⟩] 0).2
      ≠ [("id", ColumnType.Int, 1), ("name", ColumnType.Str, 2)] :=
  ⟨rfl, by decide⟩

/-- C2 amended: for the catalog [DB_TRX_ID(Internal), id(Int), name(String)]
schema derivation excludes the internal column and produces the exposed
schema [(id, Int64, physical 0), (name, Utf8, physical 1)]: the recorded
physical indices count only non-internal columns, so they are 0 and 1. -/
theorem schema_scenario_amended :
    buildSchemaMapping
        [⟨"DB_TRX_ID", ColumnType.Internal, 0⟩, ⟨"id", ColumnType.Int, 1⟩,
         ⟨"name", ColumnType.Str, 2⟩] 0
      = ([⟨"id", DataType.Int64, true⟩, ⟨"name", DataType.Utf8, true⟩],
         [("id", ColumnType.Int, 0), ("name", ColumnType.Str, 1)]) :=
  rfl

/-- C3: the exposed schema built at provider construction contains exactly
the non-internal catalog columns, in catalog order, and its length is the
catalog length minus the number of internal columns. -/
theorem exposed_schema_excludes_internal (cols : List ColumnInfo) :
    (buildSchemaMapping cols 0).2.map (fun x => (x.1, x.2.1))
      = (cols.filter fun c => c.col_type ≠ ColumnType.Internal).map
          (fun c => (c.name, c.col_type))
    ∧ (buildSchemaMapping cols 0).1.length
      = cols.length - (cols.filter fun c => c.col_type = ColumnType.Internal).length
    ∧ (buildSchemaMapping cols 0).2.length
      = cols.length - (cols.filter fun c => c.col_type = ColumnType.Internal).length := by
  have hm := buildSchemaMapping_names_types cols 0
  have hl := buildSchemaMapping_lengths cols 0
  have hsplit := length_filter_internal_split cols
  have hlen2 : (buildSchemaMapping cols 0).2.length
      = (cols.filter fun c => c.col_type ≠ ColumnType.Internal).length := by
    have := congrArg List.length hm
    simpa using this
  exact ⟨hm, by omega, by omega⟩

/-- C5: once the stream state is Done, a pull returns no batch and leaves the
state (and hence the foreign cursor) untouched; and a stream whose unfold
state has been dropped keeps returning completion on every later pull. -/
theorem pull_after_done :
    (∀ s : IbdStreamState, s.done = true → read_next_batch s = (Except.ok none, s))
    ∧ (∀ n : Nat, pullList (ScanStream.mk none) n
        = List.replicate n PullResult.finished) := by
  constructor
  · intro s h
    simp [read_next_batch, h]
  · intro n
    induction n with
    | zero => rfl
    | succ n ih => simp [pullList, pull, ih, List.replicate]

/-- C5 witness: a Done state with rows still pending in its cursor yields no
batch and is returned unchanged. -/
theorem pull_after_done_witness :
    read_next_batch
        ⟨[RowOutcome.row [ColumnValue.Int 7]], [⟨ColumnType.Int, 0⟩], 8, true⟩
      = (Except.ok none,
         ⟨[RowOutcome.row [ColumnValue.Int 7]], [⟨ColumnType.Int, 0⟩], 8, true⟩) :=
  pull_after_done.1 _ rfl

/-- C7: a foreign Null cell is appended as an explicit null entry by every
typed accumulator — including the string one, which never stores the literal
text "NULL" for it — while the separate human-display rendering of Null is
the text "NULL". -/
theorem null_cell_pushes_null :
    (∀ vs, (ColumnBuilder.Int vs).push ColumnValue.Null
      = ColumnBuilder.Int (vs.concat none))
    ∧ (∀ vs, (ColumnBuilder.UInt vs).push ColumnValue.Null
      = ColumnBuilder.UInt (vs.concat none))
    ∧ (∀ vs, (ColumnBuilder.Float vs).push ColumnValue.Null
      = ColumnBuilder.Float (vs.concat none))
    ∧ (∀ vs, (ColumnBuilder.Str vs).push ColumnValue.Null
      = ColumnBuilder.Str (vs.concat none))
    ∧ (∀ vs, (ColumnBuilder.Str vs).push ColumnValue.Null
      ≠ ColumnBuilder.Str (vs.concat (some "NULL")))
    ∧ asString ColumnValue.Null = "NULL" := by
  refine ⟨fun vs => rfl, fun vs => rfl, fun vs => rfl, fun vs => rfl,
    fun vs h => ?_, rfl⟩
  simp [ColumnBuilder.push, List.concat_eq_append] at h

/-- C10: `ColumnBuilder::push` is total and appends exactly one entry for
every value; on a numeric accumulator any variant other than the matching
numeric one is appended as null unless it is a Formatted string, and a
Formatted string that fails to parse is appended as null as well — never an
error. -/
theorem push_is_total_parse_or_null :
    (∀ (b : ColumnBuilder) (v : ColumnValue), (b.push v).len = b.len + 1)
    ∧ (∀ vs v, (∀ n, v ≠ ColumnValue.Int n) → (∀ s, v ≠ ColumnValue.Formatted s) →
        (ColumnBuilder.Int vs).push v = ColumnBuilder.Int (vs.concat none))
    ∧ (∀ vs s, parseI64 s = none →
        (ColumnBuilder.Int vs).push (ColumnValue.Formatted s)
          = ColumnBuilder.Int (vs.concat none))
    ∧ (∀ vs v, (∀ n, v ≠ ColumnValue.UInt n) → (∀ s, v ≠ ColumnValue.Formatted s) →
        (ColumnBuilder.UInt vs).push v = ColumnBuilder.UInt (vs.concat none))
    ∧ (∀ vs s, parseU64 s = none →
        (ColumnBuilder.UInt vs).push (ColumnValue.Formatted s)
          = ColumnBuilder.UInt (vs.concat none))
    ∧ (∀ vs v, (∀ x, v ≠ ColumnValue.Float x) → (∀ s, v ≠ ColumnValue.Formatted s) →
        (ColumnBuilder.Float vs).push v = ColumnBuilder.Float (vs.concat none))
    ∧ (∀ vs s, parseF64 s = none →
        (ColumnBuilder.Float vs).push (ColumnValue.Formatted s)
          = ColumnBuilder.Float (vs.concat none)) := by
  refine ⟨ColumnBuilder.push_len, fun vs v h1 h2 => ?_, fun vs s h => ?_,
    fun vs v h1 h2 => ?_, fun vs s h => ?_, fun vs v h1 h2 => ?_, fun vs s h => ?_⟩
  · cases v <;> first | rfl | exact absurd rfl (h1 _) | exact absurd rfl (h2 _)
  · simp [ColumnBuilder.push, h]
  · cases v <;> first | rfl | exact absurd rfl (h1 _) | exact absurd rfl (h2 _)
  · simp [ColumnBuilder.push, h]
  · cases v <;> first | rfl | exact absurd rfl (h1 _) | exact absurd rfl (h2 _)
  · simp [ColumnBuilder.push, h]

/-- C10 witness: a string cell on an Int column and an unparsable Formatted
cell both land as nulls, via the theorem at concrete inputs. -/
theorem push_is_total_parse_or_null_witness :
    (ColumnBuilder.Int [some 9]).push (ColumnValue.Str "x")
      = ColumnBuilder.Int ([some 9].concat none)
    ∧ parseI64 "abc" = none
    ∧ (ColumnBuilder.Int [some 9]).push (ColumnValue.Formatted "abc")
      = ColumnBuilder.Int ([some 9].concat none) :=
  ⟨push_is_total_parse_or_null.2.1 [some 9] (ColumnValue.Str "x")
      (fun n h => nomatch h) (fun s h => nomatch h),
   by decide,
   push_is_total_parse_or_null.2.2.1 [some 9] "abc" (by decide)⟩


/-- Characterisation of a failing traversal that cannot fail: the result
exists, has one entry per input, and its j-th entry comes from the j-th
input. -/
theorem optionTraverse_ok {A B : Type} (f : A → Option B) :
    ∀ xs : List A, (∀ x ∈ xs, (f x).isSome) →
      ∃ ys, optionTraverse f xs = some ys ∧ ys.length = xs.length
        ∧ ∀ j : Nat, ys[j]? = (xs[j]?).bind f := by
  intro xs
  induction xs with
  | nil =>
    intro h
    exact ⟨[], rfl, rfl, fun j => by cases j <;> rfl⟩
  | cons x rest ih =>
    intro h
    obtain ⟨y, hy⟩ := Option.isSome_iff_exists.mp (h x (List.mem_cons_self x rest))
    obtain ⟨ys, hys, hlen, hidx⟩ := ih fun z hz => h z (List.mem_cons_of_mem x hz)
    refine ⟨y :: ys, ?_, by simp [hlen], fun j => ?_⟩
    · simp [optionTraverse, hy, hys]
    · cases j with
      | zero => simp [hy]
      | succ j => simpa using hidx j

/-- With no requested projection, `IbdStreamState::try_new` resolves every
visible column, in schema order. -/
theorem resolveProjected_none (m : List (String × ColumnType × Nat)) :
    resolveProjectedColumns m none
      = some (m.map fun x => ProjCol.mk x.2.1 x.2.2) := by
  obtain ⟨ys, h1, h2, h3⟩ := optionTraverse_ok
      (fun idx => (m[idx]?).map fun x => ProjCol.mk x.2.1 x.2.2)
      (List.range m.length)
      (by
        intro i hi
        rw [List.mem_range] at hi
        simp [List.getElem?_eq_getElem hi])
  have hys : ys = m.map fun x => ProjCol.mk x.2.1 x.2.2 := by
    apply List.ext_getElem?
    intro j
    rw [h3 j]
    by_cases hj : j < m.length
    · simp [List.getElem?_range, hj, List.getElem?_eq_getElem hj]
    · have hmj : m[j]? = none := by
        rw [List.getElem?_eq_none_iff]
        omega
      have hrj : (List.range m.length)[j]? = none := by
        rw [List.getElem?_eq_none_iff, List.length_range]
        omega
      simp [hrj, hmj]
  have hdef : resolveProjectedColumns m none
      = optionTraverse (fun idx => (m[idx]?).map fun x => ProjCol.mk x.2.1 x.2.2)
          (List.range m.length) := rfl
  rw [hdef, h1, hys]

/-- An in-bounds requested projection resolves through the cached mapping in
the caller's order. -/
theorem resolveProjected_some (m : List (String × ColumnType × Nat))
    (is : List Nat) (h : ∀ i ∈ is, i < m.length) :
    ∃ ps, resolveProjectedColumns m (some is) = some ps
      ∧ ps.length = is.length
      ∧ ∀ j : Nat, ps[j]?
          = (is[j]?).bind fun i => (m[i]?).map fun x => ProjCol.mk x.2.1 x.2.2 := by
  obtain ⟨ps, h1, h2, h3⟩ := optionTraverse_ok
      (fun idx => (m[idx]?).map fun x => ProjCol.mk x.2.1 x.2.2) is
      (by intro i hi; simp [List.getElem?_eq_getElem (h i hi)])
  exact ⟨ps, h1, h2, h3⟩

/-- An in-bounds projection of the exposed schema keeps the requested order. -/
theorem schemaProject_some (fields : List ArrowField) (is : List Nat)
    (h : ∀ i ∈ is, i < fields.length) :
    ∃ fs, schemaProject fields is = some fs
      ∧ fs.length = is.length
      ∧ ∀ j : Nat, fs[j]? = (is[j]?).bind fun i => fields[i]? := by
  obtain ⟨fs, h1, h2, h3⟩ := optionTraverse_ok (fun i => fields[i]?) is
      (by intro i hi; simp [List.getElem?_eq_getElem (h i hi)])
  exact ⟨fs, h1, h2, h3⟩

/-- C8: with no requested projection the scan reads all visible columns in
exposed-schema order; with a projection present, both the projected schema of
`IbdExec::new` and the resolved column list of `IbdStreamState::try_new`
follow the caller's requested order position by position — the projection is
never re-sorted. -/
theorem projection_preserves_request_order :
    (∀ (fields : List ArrowField) (m : List (String × ColumnType × Nat)),
        ibdExecProjectedSchema fields none = some fields
        ∧ resolveProjectedColumns m none
          = some (m.map fun x => ProjCol.mk x.2.1 x.2.2))
    ∧ (∀ (fields : List ArrowField) (is : List Nat),
        (∀ i ∈ is, i < fields.length) →
        ∃ fs, ibdExecProjectedSchema fields (some is) = some fs
          ∧ fs.length = is.length
          ∧ ∀ j : Nat, fs[j]? = (is[j]?).bind fun i => fields[i]?)
    ∧ (∀ (m : List (String × ColumnType × Nat)) (is : List Nat),
        (∀ i ∈ is, i < m.length) →
        ∃ ps, resolveProjectedColumns m (some is) = some ps
          ∧ ps.length = is.length
          ∧ ∀ j : Nat, ps[j]?
              = (is[j]?).bind fun i => (m[i]?).map fun x => ProjCol.mk x.2.1 x.2.2) :=
  ⟨fun fields m => ⟨rfl, resolveProjected_none m⟩,
   fun fields is h => schemaProject_some fields is h,
   fun m is h => resolveProjected_some m is h⟩

/-- C8 witness: projecting a three-field schema with the request [2, 0]
yields the fields in exactly that order. -/
theorem projection_preserves_request_order_witness :
    ∃ fs, ibdExecProjectedSchema
        [⟨"a", DataType.Int64, true⟩, ⟨"b", DataType.Utf8, true⟩,
         ⟨"c", DataType.Float64, true⟩] (some [2, 0]) = some fs
      ∧ fs.length = 2
      ∧ ∀ j : Nat, fs[j]? = (([2, 0] : List Nat)[j]?).bind fun i =>
          ([⟨"a", DataType.Int64, true⟩, ⟨"b", DataType.Utf8, true⟩,
            ⟨"c", DataType.Float64, true⟩] : List ArrowField)[i]? :=
  projection_preserves_request_order.2.1 _ [2, 0] (by decide)

/-- C9: when every requested projection index is below the number of visible
columns, the schema projection of `IbdExec::new` and the mapping lookups of
`IbdStreamState::try_new` both succeed — the panic branches (`unwrap`,
out-of-bounds indexing) are unreachable. -/
theorem inbounds_projection_never_fails (cols : List ColumnInfo) (is : List Nat)
    (h : ∀ i ∈ is, i < (buildSchemaMapping cols 0).2.length) :
    (ibdExecProjectedSchema (buildSchemaMapping cols 0).1 (some is)).isSome
    ∧ (resolveProjectedColumns (buildSchemaMapping cols 0).2 (some is)).isSome := by
  have hlen := buildSchemaMapping_lengths cols 0
  obtain ⟨fs, h1, -, -⟩ := schemaProject_some (buildSchemaMapping cols 0).1 is
    (by intro i hi; rw [hlen]; exact h i hi)
  obtain ⟨ps, h2, -, -⟩ := resolveProjected_some (buildSchemaMapping cols 0).2 is h
  constructor
  · show (schemaProject (buildSchemaMapping cols 0).1 is).isSome
    rw [h1]
    rfl
  · rw [h2]
    rfl

/-- C9 witness: both lookups succeed for the in-bounds projection [1, 0] over
a catalog with one internal and two visible columns. -/
theorem inbounds_projection_never_fails_witness :
    (∀ i ∈ ([1, 0] : List Nat), i < (buildSchemaMapping
        [⟨"DB_TRX_ID", ColumnType.Internal, 0⟩, ⟨"id", ColumnType.Int, 1⟩,
         ⟨"name", ColumnType.Str, 2⟩] 0).2.length)
    ∧ ((ibdExecProjectedSchema (buildSchemaMapping
          [⟨"DB_TRX_ID", ColumnType.Internal, 0⟩, ⟨"id", ColumnType.Int, 1⟩,
           ⟨"name", ColumnType.Str, 2⟩] 0).1 (some [1, 0])).isSome
      ∧ (resolveProjectedColumns (buildSchemaMapping
          [⟨"DB_TRX_ID", ColumnType.Internal, 0⟩, ⟨"id", ColumnType.Int, 1⟩,
           ⟨"name", ColumnType.Str, 2⟩] 0).2 (some [1, 0])).isSome) :=
  ⟨by decide, inbounds_projection_never_fails
    [⟨"DB_TRX_ID", ColumnType.Internal, 0⟩, ⟨"id", ColumnType.Int, 1⟩,
     ⟨"name", ColumnType.Str, 2⟩] [1, 0] (by decide)⟩

/-- Unfolding: zero fuel stops the row loop without reading. -/
theorem readLoop_zero (p : List ProjCol) (o : List RowOutcome)
    (b : List ColumnBuilder) (r : Nat) :
    readLoop p 0 o b r = Except.ok (b, r, false, o) := rfl

/-- Unfolding: an exhausted cursor reports end of data. -/
theorem readLoop_succ_nil (p : List ProjCol) (f : Nat)
    (b : List ColumnBuilder) (r : Nat) :
    readLoop p (f + 1) [] b r = Except.ok (b, r, true, []) := rfl

/-- Unfolding: an explicit end-of-data outcome stops the loop. -/
theorem readLoop_succ_eof (p : List ProjCol) (f : Nat) (rest : List RowOutcome)
    (b : List ColumnBuilder) (r : Nat) :
    readLoop p (f + 1) (RowOutcome.eof :: rest) b r
      = Except.ok (b, r, true, rest) := rfl

/-- Unfolding: a read error aborts the loop with that error. -/
theorem readLoop_succ_fail (p : List ProjCol) (f : Nat) (e : IbdError)
    (rest : List RowOutcome) (b : List ColumnBuilder) (r : Nat) :
    readLoop p (f + 1) (RowOutcome.fail e :: rest) b r = Except.error e := rfl

/-- Unfolding: a row outcome pushes its cells and continues. -/
theorem readLoop_succ_row (p : List ProjCol) (f : Nat) (cells : List ColumnValue)
    (rest : List RowOutcome) (b : List ColumnBuilder) (r : Nat) :
    readLoop p (f + 1) (RowOutcome.row cells :: rest) b r
      = match pushRowCells cells b p with
        | Except.error e => Except.error e
        | Except.ok b2 => readLoop p f rest b2 (r + 1) := rfl

/-- Fresh builders start empty. -/
theorem with_capacity_len (t : ColumnType) :
    (ColumnBuilder.with_capacity t).len = 0 := by
  cases t <;> rfl

/-- Finishing a builder preserves its entry count. -/
theorem finish_length (b : ColumnBuilder) :
    (ColumnBuilder.finish b).length = b.len := by
  cases b <;> rfl

/-- Shifting a list of naturals twice adds the shifts. -/
theorem map_add_add (l : List Nat) (a b : Nat) :
    (l.map fun n => n + a).map (fun n => n + b) = l.map fun n => n + (a + b) := by
  induction l with
  | nil => rfl
  | cons x xs ih => simp [ih, Nat.add_assoc]

/-- When every projected index is inside the row, the cell loop succeeds and
adds one entry to each zipped builder. -/
theorem pushRowCells_ok (cells : List ColumnValue) :
    ∀ (projected : List ProjCol) (builders : List ColumnBuilder),
      builders.length = projected.length →
      (∀ c ∈ projected, c.ibd_index < cells.length) →
      ∃ bs2, pushRowCells cells builders projected = Except.ok bs2
        ∧ bs2.map ColumnBuilder.len
            = (builders.map ColumnBuilder.len).map fun n => n + 1 := by
  intro projected
  induction projected with
  | nil =>
    intro builders hlen hc
    cases builders with
    | nil => exact ⟨[], rfl, rfl⟩
    | cons b bs => simp at hlen
  | cons c cs ih =>
    intro builders hlen hc
    cases builders with
    | nil => simp at hlen
    | cons b bs =>
      have hidx : c.ibd_index < cells.length := hc c (List.mem_cons_self c cs)
      obtain ⟨bs2, h1, h2⟩ := ih bs (by simpa using hlen)
        fun d hd => hc d (List.mem_cons_of_mem c hd)
      refine ⟨b.push (cells.get ⟨c.ibd_index, hidx⟩) :: bs2, ?_, ?_⟩
      · simp [pushRowCells, rowGet, hidx, h1]
        rfl
      · simp [h2, ColumnBuilder.push_len]

/-- One successful row shot of the loop: push the cells, continue with one
fewer slot. -/
theorem readLoop_cons_row (p : List ProjCol) (f : Nat) (cells : List ColumnValue)
    (rest : List RowOutcome) (builders b2 : List ColumnBuilder) (r : Nat)
    (hpush : pushRowCells cells builders p = Except.ok b2) :
    readLoop p (f + 1) (RowOutcome.row cells :: rest) builders r
      = readLoop p f rest b2 (r + 1) := by
  rw [readLoop_succ_row, hpush]

/-- With exactly as many compatible rows as fuel, the row loop consumes them
all, leaves the tail of the cursor untouched, and does not set the done
flag. -/
theorem readLoop_rows_exact (p : List ProjCol) (tail : List RowOutcome) :
    ∀ (rows : List (List ColumnValue)) (builders : List ColumnBuilder) (r : Nat),
      builders.length = p.length →
      (∀ row ∈ rows, ∀ c ∈ p, c.ibd_index < row.length) →
      ∃ bs2, readLoop p rows.length (rows.map RowOutcome.row ++ tail) builders r
          = Except.ok (bs2, r + rows.length, false, tail)
        ∧ bs2.length = builders.length
        ∧ bs2.map ColumnBuilder.len
            = (builders.map ColumnBuilder.len).map fun n => n + rows.length := by
  intro rows
  induction rows with
  | nil =>
    intro builders r hlen hc
    exact ⟨builders, by simp [readLoop_zero], rfl, by simp⟩
  | cons row rest ih =>
    intro builders r hlen hc
    obtain ⟨b2, hpush, hblen⟩ := pushRowCells_ok row p builders hlen
      (hc row (List.mem_cons_self row rest))
    have hb2len : b2.length = builders.length := by
      have := congrArg List.length hblen
      simpa using this
    obtain ⟨bs2, hloop, hlen2, hmap⟩ := ih b2 (r + 1) (hb2len.trans hlen)
      fun u hu => hc u (List.mem_cons_of_mem row hu)
    refine ⟨bs2, ?_, hlen2.trans hb2len, ?_⟩
    · simp only [List.length_cons, List.map_cons, List.cons_append]
      rw [readLoop_cons_row p rest.length row _ builders b2 r hpush, hloop]
      have harith : r + 1 + rest.length = r + (rest.length + 1) := by omega
      rw [harith]
    · simp only [List.length_cons]
      rw [hmap, hblen, map_add_add]
      have harith : (1 : Nat) + rest.length = rest.length + 1 := by omega
      rw [harith]

/-- With fewer compatible rows than fuel and nothing after them, the row loop
consumes them all, observes end of data and sets the done flag. -/
theorem readLoop_rows_short (p : List ProjCol) :
    ∀ (rows : List (List ColumnValue)) (fuel : Nat)
      (builders : List ColumnBuilder) (r : Nat),
      rows.length < fuel →
      builders.length = p.length →
      (∀ row ∈ rows, ∀ c ∈ p, c.ibd_index < row.length) →
      ∃ bs2, readLoop p fuel (rows.map RowOutcome.row) builders r
          = Except.ok (bs2, r + rows.length, true, [])
        ∧ bs2.length = builders.length
        ∧ bs2.map ColumnBuilder.len
            = (builders.map ColumnBuilder.len).map fun n => n + rows.length := by
  intro rows
  induction rows with
  | nil =>
    intro fuel builders r hf hlen hc
    cases fuel with
    | zero => omega
    | succ f => exact ⟨builders, by simp [readLoop_succ_nil], rfl, by simp⟩
  | cons row rest ih =>
    intro fuel builders r hf hlen hc
    cases fuel with
    | zero => omega
    | succ f =>
      obtain ⟨b2, hpush, hblen⟩ := pushRowCells_ok row p builders hlen
        (hc row (List.mem_cons_self row rest))
      have hb2len : b2.length = builders.length := by
        have := congrArg List.length hblen
        simpa using this
      obtain ⟨bs2, hloop, hlen2, hmap⟩ := ih f b2 (r + 1) (by simpa using hf)
        (hb2len.trans hlen) fun u hu => hc u (List.mem_cons_of_mem row hu)
      refine ⟨bs2, ?_, hlen2.trans hb2len, ?_⟩
      · simp only [List.length_cons, List.map_cons]
        rw [readLoop_cons_row p f row _ builders b2 r hpush, hloop]
        have harith : r + 1 + rest.length = r + (rest.length + 1) := by omega
        rw [harith]
      · simp only [List.length_cons]
        rw [hmap, hblen, map_add_add]
        have harith : (1 : Nat) + rest.length = rest.length + 1 := by omega
        rw [harith]

/-- A read error within the current fuel budget aborts the row loop with that
error. -/
theorem readLoop_hits_fail (p : List ProjCol) (e : IbdError) (tail : List RowOutcome) :
    ∀ (rows : List (List ColumnValue)) (fuel : Nat)
      (builders : List ColumnBuilder) (r : Nat),
      rows.length < fuel →
      builders.length = p.length →
      (∀ row ∈ rows, ∀ c ∈ p, c.ibd_index < row.length) →
      readLoop p fuel (rows.map RowOutcome.row ++ RowOutcome.fail e :: tail) builders r
        = Except.error e := by
  intro rows
  induction rows with
  | nil =>
    intro fuel builders r hf hlen hc
    cases fuel with
    | zero => omega
    | succ f => simp [readLoop_succ_fail]
  | cons row rest ih =>
    intro fuel builders r hf hlen hc
    cases fuel with
    | zero => omega
    | succ f =>
      obtain ⟨b2, hpush, hblen⟩ := pushRowCells_ok row p builders hlen
        (hc row (List.mem_cons_self row rest))
      have hb2len : b2.length = builders.length := by
        have := congrArg List.length hblen
        simpa using this
      rw [List.map_cons, List.cons_append, readLoop_succ_row, hpush]
      exact ih f b2 (r + 1) (by simpa using hf) (hb2len.trans hlen)
        fun rw hrw => hc rw (List.mem_cons_of_mem row hrw)

/-- A projected index beyond the row's cells makes the cell loop fail with
InvalidParam (the bound-check error of `IbdRow::get`). -/
theorem pushRowCells_fails (cells : List ColumnValue) :
    ∀ (projected : List ProjCol) (builders : List ColumnBuilder),
      builders.length = projected.length →
      (∃ c ∈ projected, ¬ c.ibd_index < cells.length) →
      pushRowCells cells builders projected = Except.error IbdError.InvalidParam := by
  intro projected
  induction projected with
  | nil =>
    intro builders hlen hbad
    obtain ⟨c, hc, -⟩ := hbad
    simp at hc
  | cons c cs ih =>
    intro builders hlen hbad
    cases builders with
    | nil => simp at hlen
    | cons b bs =>
      by_cases hidx : c.ibd_index < cells.length
      · obtain ⟨d, hd, hdbad⟩ := hbad
        rcases List.mem_cons.mp hd with hdc | hdcs
        · exact absurd (hdc ▸ hidx) hdbad
        · have hrec := ih bs (by simpa using hlen) ⟨d, hdcs, hdbad⟩
          simp [pushRowCells, rowGet, hidx, hrec]
          rfl
      · simp [pushRowCells, rowGet, hidx]
        rfl

/-- Fresh builders all start with zero entries. -/
theorem initial_builders_len (p : List ProjCol) :
    (p.map fun c => ColumnBuilder.with_capacity c.col_type).map ColumnBuilder.len
      = p.map fun _ => 0 := by
  rw [List.map_map]
  exact List.map_congr_left fun c hc => with_capacity_len c.col_type

/-- Shifting an all-zero length list adds the shift everywhere. -/
theorem map_const_shift (p : List ProjCol) (n : Nat) :
    (p.map fun _ => (0 : Nat)).map (fun m => m + n) = p.map fun _ => n := by
  rw [List.map_map]
  exact List.map_congr_left fun c hc => by simp

/-- Finishing builders of uniform length yields a batch with that row
count. -/
theorem recordBatch_of_uniform (bs2 : List ColumnBuilder) (p : List ProjCol)
    (n : Nat) (hp : p ≠ []) (hlen : bs2.length = p.length)
    (hmap : bs2.map ColumnBuilder.len = p.map fun _ => n) :
    ∃ batch, recordBatchTryNew (bs2.map ColumnBuilder.finish) = Except.ok batch
      ∧ batch.numRows = n := by
  have hall : ∀ a ∈ bs2.map ColumnBuilder.finish, a.length = n := by
    intro a ha
    obtain ⟨b, hb, rfl⟩ := List.mem_map.mp ha
    rw [finish_length]
    have hmem : b.len ∈ bs2.map ColumnBuilder.len := List.mem_map.mpr ⟨b, hb, rfl⟩
    rw [hmap] at hmem
    obtain ⟨c, -, hcn⟩ := List.mem_map.mp hmem
    exact hcn.symm
  cases hcols : bs2.map ColumnBuilder.finish with
  | nil =>
    exfalso
    have h0 : bs2.length = 0 := by
      have hh := congrArg List.length hcols
      rw [List.length_map] at hh
      exact hh
    exact hp (List.eq_nil_of_length_eq_zero (by omega))
  | cons c rest =>
    have hcn : c.length = n := hall c (hcols ▸ List.mem_cons_self c rest)
    have hrest : rest.all (fun a => a.length = c.length) = true := by
      rw [List.all_eq_true]
      intro a ha
      have han : a.length = n :=
        hall a (hcols ▸ List.mem_cons_of_mem c ha)
      simp [han, hcn]
    refine ⟨⟨c :: rest⟩, ?_, ?_⟩
    · simp [recordBatchTryNew, hrest]
    · simp [RecordBatch.numRows, hcn]

/-- Characterisation of one `read_next_batch` call on an active state whose
row loop ends without an error. -/
theorem read_next_batch_eq (s : IbdStreamState) (hdone : s.done = false)
    (bs2 : List ColumnBuilder) (rr : Nat) (se : Bool) (rest : List RowOutcome)
    (hloop : readLoop s.projected_columns s.batch_size s.outcomes
        (s.projected_columns.map fun c => ColumnBuilder.with_capacity c.col_type) 0
      = Except.ok (bs2, rr, se, rest)) :
    read_next_batch s
      = if rr = 0 then (Except.ok none, { s with outcomes := rest, done := se })
        else
          match recordBatchTryNew (bs2.map ColumnBuilder.finish) with
          | Except.error e =>
            (Except.error e, { s with outcomes := rest, done := se })
          | Except.ok batch =>
            (Except.ok (some batch), { s with outcomes := rest, done := se }) := by
  simp only [read_next_batch, hdone, hloop]
  simp

/-- Characterisation of one `read_next_batch` call on an active state whose
row loop aborts with a reader error. -/
theorem read_next_batch_err (s : IbdStreamState) (hdone : s.done = false)
    (e : IbdError)
    (hloop : readLoop s.projected_columns s.batch_size s.outcomes
        (s.projected_columns.map fun c => ColumnBuilder.with_capacity c.col_type) 0
      = Except.error e) :
    read_next_batch s = (Except.error (ScanError.ibd e), s) := by
  simp only [read_next_batch, hdone, hloop]
  simp

/-- A full pull: with at least `B` compatible rows ahead, one call produces a
batch of exactly `B` rows, consumes `B` rows of the cursor and keeps the
stream active. -/
theorem read_next_batch_full (p : List ProjCol) (rows : List (List ColumnValue))
    (B : Nat) (hp : p ≠ []) (hB : 0 < B) (hlen : B ≤ rows.length)
    (hcompat : ∀ r ∈ rows, ∀ c ∈ p, c.ibd_index < r.length) :
    ∃ batch, read_next_batch ⟨rows.map RowOutcome.row, p, B, false⟩
        = (Except.ok (some batch),
           ⟨(rows.drop B).map RowOutcome.row, p, B, false⟩)
      ∧ batch.numRows = B := by
  have hsplit : rows.map RowOutcome.row
      = (rows.take B).map RowOutcome.row ++ (rows.drop B).map RowOutcome.row := by
    rw [← List.map_append, List.take_append_drop]
  have htake : (rows.take B).length = B := by
    rw [List.length_take]
    omega
  obtain ⟨bs2, hloop, hlen2, hmap⟩ :=
    readLoop_rows_exact p ((rows.drop B).map RowOutcome.row) (rows.take B)
      (p.map fun c => ColumnBuilder.with_capacity c.col_type) 0
      (by simp)
      (fun u hu => hcompat u (List.take_subset B rows hu))
  rw [htake] at hloop hmap
  have hloop2 : readLoop p B (rows.map RowOutcome.row)
      (p.map fun c => ColumnBuilder.with_capacity c.col_type) 0
      = Except.ok (bs2, 0 + B, false, (rows.drop B).map RowOutcome.row) := by
    rw [hsplit]
    exact hloop
  have hmap2 : bs2.map ColumnBuilder.len = p.map fun _ => B := by
    rw [hmap, initial_builders_len, map_const_shift]
  obtain ⟨batch, hbatch, hrows⟩ := recordBatch_of_uniform bs2 p B hp
    (hlen2.trans (by simp)) hmap2
  refine ⟨batch, ?_, hrows⟩
  rw [read_next_batch_eq ⟨rows.map RowOutcome.row, p, B, false⟩ rfl bs2 (0 + B)
    false ((rows.drop B).map RowOutcome.row) hloop2]
  have hcond : ¬(0 + B = 0) := by omega
  rw [if_neg hcond, hbatch]

/-- A final pull: with fewer than `B` compatible rows ahead of end of data,
one call drains the cursor; it returns `None` when no row was pending, and a
partial batch otherwise, setting the done flag either way. -/
theorem read_next_batch_rest (p : List ProjCol) (rows : List (List ColumnValue))
    (B : Nat) (hp : p ≠ []) (hlt : rows.length < B)
    (hcompat : ∀ r ∈ rows, ∀ c ∈ p, c.ibd_index < r.length) :
    (rows = [] →
      read_next_batch ⟨rows.map RowOutcome.row, p, B, false⟩
        = (Except.ok none, ⟨[], p, B, true⟩))
    ∧ (rows ≠ [] →
      ∃ batch, read_next_batch ⟨rows.map RowOutcome.row, p, B, false⟩
          = (Except.ok (some batch), ⟨[], p, B, true⟩)
        ∧ batch.numRows = rows.length) := by
  obtain ⟨bs2, hloop, hlen2, hmap⟩ :=
    readLoop_rows_short p rows B
      (p.map fun c => ColumnBuilder.with_capacity c.col_type) 0 hlt
      (by simp) hcompat
  have heq := read_next_batch_eq ⟨rows.map RowOutcome.row, p, B, false⟩ rfl bs2
    (0 + rows.length) true [] hloop
  constructor
  · intro hnil
    subst hnil
    rw [heq]
    simp
  · intro hne
    have hpos : 0 < rows.length := List.length_pos.mpr hne
    have hmap2 : bs2.map ColumnBuilder.len = p.map fun _ => rows.length := by
      rw [hmap, initial_builders_len, map_const_shift]
    obtain ⟨batch, hbatch, hrows⟩ := recordBatch_of_uniform bs2 p rows.length hp
      (hlen2.trans (by simp)) hmap2
    refine ⟨batch, ?_, hrows⟩
    have hcond : ¬(0 + rows.length = 0) := by omega
    rw [heq, if_neg hcond, hbatch]

/-- Unfolding one step of the pull sequence. -/
theorem pullList_succ (st : ScanStream) (n : Nat) :
    pullList st (n + 1) = (pull st).1 :: pullList (pull st).2 n := rfl

/-- A pull that produced a batch re-yields the updated state. -/
theorem pull_some_batch (s s2 : IbdStreamState) (b : RecordBatch)
    (h : read_next_batch s = (Except.ok (some b), s2)) :
    pull (ScanStream.mk (some s)) = (PullResult.batch b, ScanStream.mk (some s2)) := by
  simp [pull, h]

/-- A pull that produced no batch ends the unfold. -/
theorem pull_some_none (s s2 : IbdStreamState)
    (h : read_next_batch s = (Except.ok none, s2)) :
    pull (ScanStream.mk (some s)) = (PullResult.finished, ScanStream.mk none) := by
  simp [pull, h]

/-- A pull that errored surfaces the error and ends the unfold. -/
theorem pull_some_err (s s1 : IbdStreamState) (e : ScanError)
    (h : read_next_batch s = (Except.error e, s1)) :
    pull (ScanStream.mk (some s)) = (PullResult.fail e, ScanStream.mk none) := by
  simp [pull, h]

/-- A Done state yields no batch and stays untouched. -/
theorem read_next_batch_done (s : IbdStreamState) (h : s.done = true) :
    read_next_batch s = (Except.ok none, s) := by
  simp [read_next_batch, h]

/-- A dropped unfold state keeps reporting completion. -/
theorem pullList_finished (n : Nat) :
    pullList (ScanStream.mk none) n = List.replicate n PullResult.finished := by
  induction n with
  | zero => rfl
  | succ n ih => simp [pullList, pull, ih, List.replicate]

/-- C4: over an error-free source of `q * B + k` rows (`k < B`, at least one
projected column, positive batch size `B`), the scan yields `q` full batches
of `B` rows, then one `k`-row batch exactly when `k` is nonzero, then
completion — in particular never a trailing zero-row batch. -/
theorem scan_batch_shapes (p : List ProjCol) (B : Nat) (hp : p ≠ []) (hB : 0 < B) :
    ∀ (q k : Nat) (rows : List (List ColumnValue)),
      k < B → rows.length = q * B + k →
      (∀ r ∈ rows, ∀ c ∈ p, c.ibd_index < r.length) →
      (pullList (initStream p B rows) (q + (if k = 0 then 0 else 1) + 1)).map
          PullResult.shape
        = List.replicate q (PullShape.rows B)
          ++ ((if k = 0 then [] else [PullShape.rows k]) ++ [PullShape.finished]) := by
  intro q
  induction q with
  | zero =>
    intro k rows hk hn hcompat
    by_cases hk0 : k = 0
    · subst hk0
      have hnil : rows = [] := List.eq_nil_of_length_eq_zero (by simpa using hn)
      subst hnil
      have h1 := (read_next_batch_rest p [] B hp (by simpa using hB) (by simp)).1 rfl
      have hpull := pull_some_none _ _ (by simpa using h1)
      simp [pullList, initStream, hpull, PullResult.shape]
    · have hne : rows ≠ [] := by
        intro hcon
        subst hcon
        simp at hn
        omega
      obtain ⟨b, hb, hnum⟩ :=
        (read_next_batch_rest p rows B hp (by omega) hcompat).2 hne
      have hpull1 := pull_some_batch _ _ _ hb
      have h2 := read_next_batch_done ⟨[], p, B, true⟩ rfl
      have hpull2 := pull_some_none _ _ h2
      have hkrows : b.numRows = k := by
        rw [hnum, hn]
        omega
      simp [if_neg hk0, pullList, initStream, hpull1, hpull2, PullResult.shape, hkrows]
  | succ q ihq =>
    intro k rows hk hn hcompat
    have hmul : (q + 1) * B = q * B + B := Nat.succ_mul q B
    have hBle : B ≤ rows.length := by omega
    obtain ⟨b, hb, hnum⟩ := read_next_batch_full p rows B hp hB hBle hcompat
    have hdrop_len : (rows.drop B).length = q * B + k := by
      rw [List.length_drop]
      omega
    have ih := ihq k (rows.drop B) hk hdrop_len
      fun r hr => hcompat r (List.drop_subset B rows hr)
    have hpull1 := pull_some_batch _ _ _ hb
    have hcount : q + 1 + (if k = 0 then 0 else 1) + 1
        = (q + (if k = 0 then 0 else 1) + 1) + 1 := by
      by_cases hk0 : k = 0 <;> simp [hk0]
    rw [hcount, pullList_succ]
    simp only [initStream] at hpull1 ih ⊢
    rw [hpull1]
    simp only [List.map_cons]
    rw [ih]
    simp [PullResult.shape, hnum, List.replicate_succ]

/-- C4 witness: batch size 2 over five one-column rows yields two full
batches, a one-row batch, then completion. -/
theorem scan_batch_shapes_witness :
    (pullList (initStream [⟨ColumnType.Int, 0⟩] 2
        [[ColumnValue.Int 1], [ColumnValue.Int 2], [ColumnValue.Int 3],
         [ColumnValue.Int 4], [ColumnValue.Int 5]]) 4).map PullResult.shape
      = [PullShape.rows 2, PullShape.rows 2, PullShape.rows 1,
         PullShape.finished] := by
  have h := scan_batch_shapes [⟨ColumnType.Int, 0⟩] 2 (by decide) (by decide) 2 1
    [[ColumnValue.Int 1], [ColumnValue.Int 2], [ColumnValue.Int 3],
     [ColumnValue.Int 4], [ColumnValue.Int 5]] (by decide) (by decide) (by decide)
  simpa [List.replicate] using h

/-- C6: a pull in which the reader errors returns that error and ends the
stream — the unfold state (holding the reader handle) is dropped, every later
pull reports completion, and no batch with the rows accumulated in that pull
is ever emitted; both a row-read error within the batch budget and an
out-of-bounds cell fetch on a row produce exactly this error outcome with no
partial batch. -/
theorem error_pull_is_terminal :
    (∀ (s s1 : IbdStreamState) (e : ScanError) (n : Nat),
        read_next_batch s = (Except.error e, s1) →
        pullList (ScanStream.mk (some s)) (n + 1)
          = PullResult.fail e :: List.replicate n PullResult.finished)
    ∧ (∀ (p : List ProjCol) (B : Nat) (rows : List (List ColumnValue))
        (e : IbdError) (tail : List RowOutcome),
        rows.length < B →
        (∀ r ∈ rows, ∀ c ∈ p, c.ibd_index < r.length) →
        read_next_batch
            ⟨rows.map RowOutcome.row ++ RowOutcome.fail e :: tail, p, B, false⟩
          = (Except.error (ScanError.ibd e),
             ⟨rows.map RowOutcome.row ++ RowOutcome.fail e :: tail, p, B, false⟩))
    ∧ (∀ (p : List ProjCol) (B : Nat) (cells : List ColumnValue)
        (tail : List RowOutcome),
        0 < B →
        (∃ c ∈ p, ¬ c.ibd_index < cells.length) →
        read_next_batch ⟨RowOutcome.row cells :: tail, p, B, false⟩
          = (Except.error (ScanError.ibd IbdError.InvalidParam),
             ⟨RowOutcome.row cells :: tail, p, B, false⟩)) := by
  refine ⟨fun s s1 e n h => ?_, fun p B rows e tail hlt hcompat => ?_,
    fun p B cells tail hB hbad => ?_⟩
  · rw [pullList_succ, pull_some_err s s1 e h]
    simp [pullList_finished]
  · exact read_next_batch_err _ rfl e
      (readLoop_hits_fail p e tail rows B _ 0 hlt (by simp) hcompat)
  · cases B with
    | zero => omega
    | succ f =>
      have hfails := pushRowCells_fails cells p
        (p.map fun c => ColumnBuilder.with_capacity c.col_type) (by simp) hbad
      apply read_next_batch_err _ rfl
      rw [readLoop_succ_row, hfails]

/-- C6 witness: a reader error on the third row of a four-row batch makes the
pull fail with that error and the stream terminal. -/
theorem error_pull_is_terminal_witness :
    pullList (ScanStream.mk (some
        ⟨[RowOutcome.row [ColumnValue.Int 1], RowOutcome.row [ColumnValue.Int 2],
          RowOutcome.fail (IbdError.FileRead "boom")],
         [⟨ColumnType.Int, 0⟩], 4, false⟩)) 2
      = [PullResult.fail (ScanError.ibd (IbdError.FileRead "boom")),
         PullResult.finished] :=
  error_pull_is_terminal.1
    ⟨[RowOutcome.row [ColumnValue.Int 1], RowOutcome.row [ColumnValue.Int 2],
      RowOutcome.fail (IbdError.FileRead "boom")],
     [⟨ColumnType.Int, 0⟩], 4, false⟩
    ⟨[RowOutcome.row [ColumnValue.Int 1], RowOutcome.row [ColumnValue.Int 2],
      RowOutcome.fail (IbdError.FileRead "boom")],
     [⟨ColumnType.Int, 0⟩], 4, false⟩
    (ScanError.ibd (IbdError.FileRead "boom")) 1 (by decide)
